import Mathlib

/-!
Verification of the docs2vector pipeline core against its specification.

The development shallowly embeds the Python modules that the specification
covers:

* `src/storage/versioning.py` — `VersionManager` (content-hash store,
  change classification, in-place persistence);
* `src/processor/chunker.py` — `SemanticChunker` (header-based sections,
  size-bounded sub-splitting, title derivation, id assignment);
* `src/pipeline/stream_processor.py` — worker-loop statistics and error
  isolation;
* `src/embeddings/generator.py` with `src/utils/validators.py` — embedding
  attachment and the zero-vector fallback;
* `src/integrations/pinecone/client.py` and
  `src/integrations/llamaindex/client.py` — incremental sync
  (partition by change status, delete-then-reupload, skip unchanged);
* `src/pipeline/orchestrator.py` — the streaming-mode construction of
  `StreamProcessor`.

External collaborators (the langchain text splitters, the embedding
provider, the Pinecone / LlamaCloud services, the file system) enter the
embedding as explicit function parameters or outcome parameters, mirroring
the interface boundary drawn in the specification.  Python dictionaries
keyed by strings are modelled as insertion-ordered association lists,
matching dict semantics for the operations the code performs.  Numeric
vector components are never computed with by the code under verification
(only presence and length are inspected), so the float carrier is
abstracted by `Int`.
-/

namespace Docs2Vector

/-! ### Python dict model (string-keyed, insertion ordered) -/

/-- Lookup in an insertion-ordered association list, first match wins.
Mirrors `dict.get` for dicts whose keys are kept unique by `dictSet`. -/
def dictGet (m : List (String × String)) (k : String) : Option String :=
  match m with
  | [] => none
  | (k', v) :: rest => if k' = k then some v else dictGet rest k

/-- Overwrite-or-append update, mirroring `d[k] = v` on a Python dict
(value replaced in place, insertion order preserved, new keys appended). -/
def dictSet (m : List (String × String)) (k v : String) : List (String × String) :=
  match m with
  | [] => [(k, v)]
  | (k', v') :: rest => if k' = k then (k, v) :: rest else (k', v') :: dictSet rest k v

theorem dictGet_dictSet_self (m : List (String × String)) (k v : String) :
    dictGet (dictSet m k v) k = some v := by
  induction m with
  | nil => simp [dictSet, dictGet]
  | cons hd tl ih =>
    obtain ⟨k', v'⟩ := hd
    by_cases h : k' = k
    · simp [dictSet, dictGet, h]
    · simp [dictSet, dictGet, h, ih]

/-! ### VersionManager (`src/storage/versioning.py`) -/

/-- In-memory state of `VersionManager`: the `_hashes` dict (URL → digest). -/
structure VersionManager where
  hashes : List (String × String)
deriving DecidableEq

/-- `VersionManager.get_hash`: stored hash for a URL, `None` if absent. -/
def get_hash (vm : VersionManager) (url : String) : Option String :=
  dictGet vm.hashes url

/-- `VersionManager.set_hash`: upsert the mapping (the `save` flag only
controls the separate file write, modelled by `save_hashes_file`). -/
def set_hash (vm : VersionManager) (url contentHash : String) : VersionManager :=
  { vm with hashes := dictSet vm.hashes url contentHash }

/-- `VersionManager.detect_change`: classify a (url, current hash)
observation as "new", "unchanged" or "updated". -/
def detect_change (vm : VersionManager) (url currentHash : String) : String :=
  match get_hash vm url with
  | none => "new"
  | some storedHash => if storedHash = currentHash then "unchanged" else "updated"

/-- Outcome of one `_save_hashes` file write: either the serialization
completes, or the process fails after `entriesWritten` entries reached
the disk. -/
inductive SaveOutcome where
  | success : SaveOutcome
  | failAfter (entriesWritten : Nat) : SaveOutcome
deriving DecidableEq

/-- Durable file contents after `VersionManager._save_hashes`.  The source
opens the hash file with `open(self.hash_file, "w")`, which truncates it,
and then streams `json.dump(self._hashes, f)`; there is no temporary file
and no rename.  A failure partway therefore leaves a prefix of the new
serialization regardless of what the file held before. -/
def save_hashes_file (hashes : List (String × String)) (o : SaveOutcome) :
    List (String × String) :=
  match o with
  | .success => hashes
  | .failAfter k => hashes.take k

/-! ### Claim C1 -/

/-- C1: `detect_change` follows the three-way rule — no stored hash gives
"new", an equal stored hash gives "unchanged", a different stored hash
gives "updated" — and after `set_hash url h` a subsequent
`detect_change url h` returns "unchanged". -/
theorem detect_change_spec (vm : VersionManager) (url h : String) :
    (get_hash vm url = none → detect_change vm url h = "new") ∧
    (get_hash vm url = some h → detect_change vm url h = "unchanged") ∧
    (∀ g, get_hash vm url = some g → g ≠ h → detect_change vm url h = "updated") ∧
    detect_change (set_hash vm url h) url h = "unchanged" := by
  refine ⟨?_, ?_, ?_, ?_⟩
  · intro hnone
    simp [detect_change, hnone]
  · intro hsome
    simp [detect_change, hsome]
  · intro g hsome hne
    simp [detect_change, hsome, hne]
  · simp [detect_change, get_hash, set_hash, dictGet_dictSet_self]

theorem detect_change_spec_witness :
    detect_change ⟨[]⟩ "u" "h" = "new" ∧
    detect_change ⟨[("u", "h")]⟩ "u" "h" = "unchanged" ∧
    detect_change ⟨[("u", "g")]⟩ "u" "h" = "updated" ∧
    detect_change (set_hash ⟨[("u", "g")]⟩ "u" "h") "u" "h" = "unchanged" :=
  ⟨(detect_change_spec ⟨[]⟩ "u" "h").1 (by decide),
   (detect_change_spec ⟨[("u", "h")]⟩ "u" "h").2.1 (by decide),
   (detect_change_spec ⟨[("u", "g")]⟩ "u" "h").2.2.1 "g" (by decide) (by decide),
   (detect_change_spec ⟨[("u", "g")]⟩ "u" "h").2.2.2⟩

/-! ### Claim C5 -/

/-- C5 counterexample: the hash store is persisted by truncate-then-write,
not atomically.  Concretely: a successful flush of `[("u","h")]` leaves
exactly that file; after recording a second URL, a flush that fails before
any entry is written leaves an empty file, which no longer contains the
entry `("u","h")` from the last successful flush. -/
theorem save_hashes_midfail_counterexample :
    save_hashes_file [("u", "h")] .success = [("u", "h")] ∧
    save_hashes_file (dictSet [("u", "h")] "v" "g") (.failAfter 0) = [] ∧
    ("u", "h") ∉ save_hashes_file (dictSet [("u", "h")] "v" "g") (.failAfter 0) := by
  refine ⟨rfl, by decide, by decide⟩

/-- C5 (amended): `persist()` rewrites the hash file in place.  A
successful flush leaves exactly the full current mapping and repeating it
is safe (idempotent), but a flush that fails partway leaves only a prefix
of the new serialization — previously flushed entries are not protected
by any temp-file-and-rename scheme. -/
theorem save_hashes_inplace_spec (hashes : List (String × String)) (k : Nat) :
    save_hashes_file hashes .success = hashes ∧
    save_hashes_file (save_hashes_file hashes .success) .success =
      save_hashes_file hashes .success ∧
    (∃ rest, hashes = save_hashes_file hashes (.failAfter k) ++ rest) := by
  refine ⟨rfl, rfl, ⟨hashes.drop k, ?_⟩⟩
  simp [save_hashes_file]

/-! ### Decimal rendering of naturals

`chunker.py` builds chunk ids with the f-string `f"{url_part}_{i}"`; its
Lean counterpart uses `Nat.repr`.  Distinctness of ids requires that
`Nat.repr` is injective, which we prove here via a structurally recursive
reformulation of core's fuelled `Nat.toDigitsCore`. -/

/-- Decimal digit characters of `n`, most significant first, as a
structurally recursive function. -/
def decDigits (n : Nat) : List Char :=
  if _h : n < 10 then [Nat.digitChar n]
  else decDigits (n / 10) ++ [Nat.digitChar (n % 10)]
termination_by n
decreasing_by
  exact Nat.div_lt_self (by omega) (by omega)

theorem decDigits_ne_nil (n : Nat) : decDigits n ≠ [] := by
  unfold decDigits
  split
  · simp
  · simp

theorem toDigitsCore_eq_decDigits (fuel : Nat) :
    ∀ (n : Nat) (ds : List Char), n < fuel →
      Nat.toDigitsCore 10 fuel n ds = decDigits n ++ ds := by
  induction fuel with
  | zero => intro n ds h; omega
  | succ f ih =>
    intro n ds h
    by_cases hz : n / 10 = 0
    · have hn : n < 10 := by omega
      rw [decDigits]
      simp [Nat.toDigitsCore, hz, Nat.mod_eq_of_lt hn, hn]
    · have hn : ¬ n < 10 := by
        intro hlt
        exact hz (Nat.div_eq_of_lt hlt)
      have hdivlt : n / 10 < f := by
        have h1 : n / 10 < n := Nat.div_lt_self (by omega) (by omega)
        omega
      rw [decDigits]
      simp only [Nat.toDigitsCore, hz, if_false, hn, dif_neg, not_false_iff]
      rw [ih (n / 10) (Nat.digitChar (n % 10) :: ds) hdivlt]
      simp

theorem toDigits_eq_decDigits (n : Nat) : Nat.toDigits 10 n = decDigits n := by
  have h := toDigitsCore_eq_decDigits (n + 1) n [] (Nat.lt_succ_self n)
  simpa [Nat.toDigits] using h

theorem digitChar_inj_lt :
    ∀ i, i < 10 → ∀ j, j < 10 → Nat.digitChar i = Nat.digitChar j → i = j := by
  decide

theorem decDigits_of_lt {n : Nat} (h : n < 10) :
    decDigits n = [Nat.digitChar n] := by
  rw [decDigits, dif_pos h]

theorem decDigits_of_ge {n : Nat} (h : ¬ n < 10) :
    decDigits n = decDigits (n / 10) ++ [Nat.digitChar (n % 10)] := by
  rw [decDigits]
  exact dif_neg h

theorem decDigits_inj (m : Nat) : ∀ n, decDigits m = decDigits n → m = n := by
  induction m using Nat.strong_induction_on with
  | _ m ih =>
    intro n h
    by_cases hm : m < 10 <;> by_cases hn : n < 10
    · rw [decDigits_of_lt hm, decDigits_of_lt hn] at h
      exact digitChar_inj_lt m hm n hn (List.singleton_injective h)
    · rw [decDigits_of_lt hm, decDigits_of_ge hn] at h
      have hlen := congrArg List.length h
      have hne := decDigits_ne_nil (n / 10)
      simp at hlen
      exact absurd hlen hne
    · rw [decDigits_of_ge hm, decDigits_of_lt hn] at h
      have hlen := congrArg List.length h
      have hne := decDigits_ne_nil (m / 10)
      simp at hlen
      exact absurd hlen hne
    · rw [decDigits_of_ge hm, decDigits_of_ge hn] at h
      have h' := congrArg List.reverse h
      simp only [List.reverse_append, List.reverse_cons, List.reverse_nil,
        List.nil_append, List.singleton_append, List.cons.injEq] at h'
      obtain ⟨hdig, hrev⟩ := h'
      have htails : decDigits (m / 10) = decDigits (n / 10) :=
        List.reverse_injective hrev
      have hdiv : m / 10 = n / 10 :=
        ih (m / 10) (Nat.div_lt_self (by omega) (by omega)) (n / 10) htails
      have hmod : m % 10 = n % 10 :=
        digitChar_inj_lt (m % 10) (Nat.mod_lt m (by omega)) (n % 10)
          (Nat.mod_lt n (by omega)) hdig
      omega

theorem natRepr_inj {m n : Nat} (h : Nat.repr m = Nat.repr n) : m = n := by
  have h' : (Nat.toDigits 10 m).asString = (Nat.toDigits 10 n).asString := h
  rw [toDigits_eq_decDigits, toDigits_eq_decDigits] at h'
  have hlist : decDigits m = decDigits n := by
    have := congrArg String.data h'
    simpa [List.asString] using this
  exact decDigits_inj m n hlist

/-! ### SemanticChunker (`src/processor/chunker.py`)

The markdown header splitter and the recursive character splitter are
langchain collaborators; they enter the model as function parameters
`mdSplit` (text to sections tagged with the open headers) and `sentSplit`
(section text to pieces). -/

/-- Python `str.strip()`: remove leading and trailing whitespace.
Defined on the character list so that it evaluates inside the kernel. -/
def pyStrip (s : String) : String :=
  ⟨((s.data.dropWhile Char.isWhitespace).reverse.dropWhile Char.isWhitespace).reverse⟩

/-- Python `str.split(sep)` for a one-character separator, on character
lists: empty fields are kept, and the empty string yields `[[]]`. -/
def splitOnChar (sep : Char) : List Char → List (List Char)
  | [] => [[]]
  | c :: rest =>
    match splitOnChar sep rest with
    | [] => [[]]
    | g :: gs => if c = sep then [] :: g :: gs else (c :: g) :: gs

/-- Python `url.split("/")`. -/
def pySplitSlash (s : String) : List String :=
  (splitOnChar '/' s.data).map List.asString

/-- Header metadata attached to a section by the markdown splitter:
the text of each currently open header level, when present. -/
structure HeaderMeta where
  h1 : Option String := none
  h2 : Option String := none
  h3 : Option String := none
  h4 : Option String := none
deriving DecidableEq

/-- Python truthiness of `chunk_metadata[level]`: present and non-empty. -/
def headerVal (o : Option String) : Option String :=
  match o with
  | some s => if s = "" then none else some s
  | none => none

/-- The header hierarchy collected by `_extract_chunk_title`, in the
source's iteration order h1, h2, h3, h4 (general to specific). -/
def activeHeaders (m : HeaderMeta) : List String :=
  [m.h1, m.h2, m.h3, m.h4].filterMap headerVal

/-- `SemanticChunker._extract_chunk_title`: the most specific header, the
two most specific joined with " > " when there are at least two, or the
document title when no header is active. -/
def extract_chunk_title (m : HeaderMeta) (documentTitle : String) : String :=
  let hier := activeHeaders m
  if hier.isEmpty then documentTitle
  else if hier.length = 1 then hier.headD ""
  else hier.getD (hier.length - 2) "" ++ " > " ++ hier.getD (hier.length - 1) ""

/-- One section produced by the markdown header splitter
(`page_content` plus header metadata). -/
structure MdSection where
  pageContent : String
  meta : HeaderMeta
deriving DecidableEq

/-- Input document as consumed by `chunk_document`: the dict fields the
chunker reads. -/
structure DocumentIn where
  url : String
  title : String
  markdownContent : String
deriving DecidableEq

/-- A chunk before document-level ids are attached (step 2 of
`chunk_document`). -/
structure PreChunk where
  content : String
  chunkTitle : String
  subChunkIndex : Option Nat
deriving DecidableEq

/-- A chunk as returned by `chunk_document` (step 3 attaches the id; the
`chunk_index` recorded in step 2 equals the final list position, since it
is `len(final_chunks)` at append time). -/
structure ChunkOut where
  id : String
  content : String
  chunkTitle : String
  chunkIndex : Nat
  subChunkIndex : Option Nat
deriving DecidableEq

/-- The `" (Part N)"` suffix appended to sub-chunk titles. -/
def partTitle (title : String) (n : Nat) : String :=
  title ++ " (Part " ++ Nat.repr n ++ ")"

/-- Chunks contributed by one header section (the body of the loop in
step 2 of `chunk_document`): skip whitespace-only sections, keep small
sections whole, split large sections with `sentSplit` and drop
whitespace-only pieces, numbering sub-chunks by their piece index. -/
def sectionChunks (chunkSize : Nat) (sentSplit : String → List String)
    (docTitle : String) (sec : MdSection) : List PreChunk :=
  if pyStrip sec.pageContent = "" then []
  else
    let chunkTitle := extract_chunk_title sec.meta docTitle
    if sec.pageContent.length ≤ chunkSize then
      [{ content := sec.pageContent, chunkTitle := chunkTitle, subChunkIndex := none }]
    else
      let pieces := sentSplit sec.pageContent
      (pieces.enum.filter (fun p => pyStrip p.2 ≠ "")).map (fun p =>
        { content := p.2,
          chunkTitle := if pieces.length > 1 then partTitle chunkTitle (p.1 + 1) else chunkTitle,
          subChunkIndex := some p.1 })

/-- `url.split("/")[-1] if url else "unknown"`. -/
def urlPart (url : String) : String :=
  if url = "" then "unknown" else (pySplitSlash url).getLastD ""

/-- Chunk id `f"{url_part}_{i}"`. -/
def mkChunkId (p : String) (i : Nat) : String :=
  p ++ "_" ++ Nat.repr i

/-- `SemanticChunker.chunk_document`: empty content yields no chunks;
otherwise split into header sections, expand each section into pre-chunks,
then attach position-derived indices and ids. -/
def chunk_document (chunkSize : Nat) (mdSplit : String → List MdSection)
    (sentSplit : String → List String) (doc : DocumentIn) : List ChunkOut :=
  if doc.markdownContent = "" then []
  else
    let sections := mdSplit doc.markdownContent
    let pre := sections.flatMap (sectionChunks chunkSize sentSplit doc.title)
    pre.enum.map (fun p =>
      { id := mkChunkId (urlPart doc.url) p.1,
        content := p.2.content,
        chunkTitle := p.2.chunkTitle,
        chunkIndex := p.1,
        subChunkIndex := p.2.subChunkIndex })

/-- `SemanticChunker.process_documents`: concatenate the chunks of each
document in order. -/
def process_documents (chunkSize : Nat) (mdSplit : String → List MdSection)
    (sentSplit : String → List String) (docs : List DocumentIn) : List ChunkOut :=
  (docs.map (chunk_document chunkSize mdSplit sentSplit)).flatten

theorem pyStrip_ne_empty {s : String} (h : pyStrip s ≠ "") : s ≠ "" := by
  intro he
  subst he
  exact h rfl

theorem length_pos_of_ne_empty {s : String} (h : s ≠ "") : 0 < s.length := by
  obtain ⟨d⟩ := s
  cases d with
  | nil => exact absurd rfl h
  | cons c cs => simp [String.length]

/-- Every pre-chunk a section contributes has non-blank content: blank
sections are skipped and blank pieces are filtered out. -/
theorem sectionChunks_content {chunkSize : Nat} {sentSplit : String → List String}
    {docTitle : String} {sec : MdSection} {pc : PreChunk}
    (h : pc ∈ sectionChunks chunkSize sentSplit docTitle sec) :
    pyStrip pc.content ≠ "" := by
  unfold sectionChunks at h
  split at h
  · simp at h
  · rename_i hblank
    split at h
    · simp at h
      subst h
      exact hblank
    · simp only [List.mem_map, List.mem_filter] at h
      obtain ⟨p, ⟨_, hp⟩, rfl⟩ := h
      simpa using hp

/-- Titles a section's pre-chunks can carry, phrased from the source's
branching: the plain section title for whole or singly-split sections, and
the 1-indexed part-suffixed title for genuinely split sections. -/
theorem sectionChunks_title {chunkSize : Nat} {sentSplit : String → List String}
    {docTitle : String} {sec : MdSection} {pc : PreChunk}
    (h : pc ∈ sectionChunks chunkSize sentSplit docTitle sec) :
    (pc.chunkTitle = extract_chunk_title sec.meta docTitle ∧
      (sec.pageContent.length ≤ chunkSize ∨ (sentSplit sec.pageContent).length ≤ 1)) ∨
    (∃ j, pc.subChunkIndex = some j ∧ j < (sentSplit sec.pageContent).length ∧
      1 < (sentSplit sec.pageContent).length ∧
      pc.chunkTitle = partTitle (extract_chunk_title sec.meta docTitle) (j + 1)) := by
  unfold sectionChunks at h
  split at h
  · simp at h
  · split at h
    · rename_i hsmall
      simp at h
      subst h
      exact Or.inl ⟨rfl, Or.inl hsmall⟩
    · simp only [List.mem_map, List.mem_filter] at h
      obtain ⟨p, ⟨hpenum, _⟩, rfl⟩ := h
      have hlt : p.1 < (sentSplit sec.pageContent).length := by
        have := List.mem_enum_iff_getElem?.mp hpenum
        exact (List.getElem?_eq_some.mp this).1
      by_cases hmany : (sentSplit sec.pageContent).length > 1
      · refine Or.inr ⟨p.1, rfl, hlt, hmany, ?_⟩
        simp [hmany]
      · refine Or.inl ⟨?_, Or.inr (by omega)⟩
        simp [hmany]

/-- Decompose membership in `chunk_document` into a source section and its
pre-chunk. -/
theorem chunk_document_mem {chunkSize : Nat} {mdSplit : String → List MdSection}
    {sentSplit : String → List String} {doc : DocumentIn} {c : ChunkOut}
    (h : c ∈ chunk_document chunkSize mdSplit sentSplit doc) :
    ∃ sec ∈ mdSplit doc.markdownContent,
      ∃ pc ∈ sectionChunks chunkSize sentSplit doc.title sec,
        c.content = pc.content ∧ c.chunkTitle = pc.chunkTitle ∧
        c.subChunkIndex = pc.subChunkIndex := by
  unfold chunk_document at h
  split at h
  · simp at h
  · simp only [List.mem_map] at h
    obtain ⟨p, hp, rfl⟩ := h
    have hmem : p.2 ∈ (mdSplit doc.markdownContent).flatMap
        (sectionChunks chunkSize sentSplit doc.title) :=
      List.snd_mem_of_mem_enum hp
    rw [List.mem_flatMap] at hmem
    obtain ⟨sec, hsec, hpc⟩ := hmem
    exact ⟨sec, hsec, p.2, hpc, rfl, rfl, rfl⟩

/-! ### Claim C8 -/

/-- C8: chunking a document with empty normalized text returns an empty
chunk list, and every emitted chunk has non-empty content (whitespace-only
sections and pieces are never emitted). -/
theorem chunk_document_content_spec (chunkSize : Nat)
    (mdSplit : String → List MdSection) (sentSplit : String → List String) :
    (∀ url title, chunk_document chunkSize mdSplit sentSplit ⟨url, title, ""⟩ = []) ∧
    (∀ doc c, c ∈ chunk_document chunkSize mdSplit sentSplit doc →
      0 < c.content.length) := by
  constructor
  · intro url title
    simp [chunk_document]
  · intro doc c hc
    obtain ⟨sec, _, pc, hpc, hcontent, -, -⟩ := chunk_document_mem hc
    rw [hcontent]
    exact length_pos_of_ne_empty (pyStrip_ne_empty (sectionChunks_content hpc))

/-- Markdown splitter used for concrete instances: the whole text as one
section under headers `A` and `B`. -/
def wMdSplit : String → List MdSection :=
  fun s => [⟨s, { h1 := some "A", h2 := some "B" }⟩]

/-- Character splitter used for concrete instances: two fixed pieces. -/
def wSentSplit : String → List String :=
  fun _ => ["abcd", "efgh"]

theorem chunk_document_content_spec_witness :
    chunk_document 3 wMdSplit wSentSplit ⟨"u/d", "T", ""⟩ = [] ∧
    0 < (⟨"d_0", "abcd", "A > B (Part 1)", 0, some 0⟩ : ChunkOut).content.length :=
  ⟨(chunk_document_content_spec 3 wMdSplit wSentSplit).1 "u/d" "T",
   (chunk_document_content_spec 3 wMdSplit wSentSplit).2 ⟨"u/d", "T", "abcdefgh"⟩
     ⟨"d_0", "abcd", "A > B (Part 1)", 0, some 0⟩ (by decide)⟩

/-! ### Claim C4 -/

/-- C4: chunk titles come from the active header hierarchy — two or more
active levels give "parent > child" from the two most specific, exactly one
gives that header, none gives the document title — and a section split into
more than one piece suffixes each resulting chunk's title with its
1-indexed part number, while singly-emitted sections carry no suffix. -/
theorem chunk_title_spec (chunkSize : Nat) (mdSplit : String → List MdSection)
    (sentSplit : String → List String) :
    (∀ (m : HeaderMeta) (dt : String),
      (activeHeaders m = [] → extract_chunk_title m dt = dt) ∧
      (∀ h, activeHeaders m = [h] → extract_chunk_title m dt = h) ∧
      (∀ hs, activeHeaders m = hs → 2 ≤ hs.length →
        extract_chunk_title m dt =
          hs.getD (hs.length - 2) "" ++ " > " ++ hs.getD (hs.length - 1) "")) ∧
    (∀ doc c, c ∈ chunk_document chunkSize mdSplit sentSplit doc →
      ∃ sec ∈ mdSplit doc.markdownContent,
        (c.chunkTitle = extract_chunk_title sec.meta doc.title ∧
          (sec.pageContent.length ≤ chunkSize ∨ (sentSplit sec.pageContent).length ≤ 1)) ∨
        (∃ j, c.subChunkIndex = some j ∧ j < (sentSplit sec.pageContent).length ∧
          1 < (sentSplit sec.pageContent).length ∧
          c.chunkTitle = partTitle (extract_chunk_title sec.meta doc.title) (j + 1))) := by
  constructor
  · intro m dt
    refine ⟨?_, ?_, ?_⟩
    · intro hnil
      simp [extract_chunk_title, hnil]
    · intro h hone
      simp [extract_chunk_title, hone]
    · intro hs heq hlen
      have hne : ¬ (activeHeaders m).isEmpty = true := by
        rw [heq]
        cases hs with
        | nil => simp at hlen
        | cons a tl => simp
      have hone : ¬ (activeHeaders m).length = 1 := by
        rw [heq]; omega
      rw [heq] at hne hone
      simp [extract_chunk_title, heq, hne, hone]
  · intro doc c hc
    obtain ⟨sec, hsec, pc, hpc, -, htitle, hsub⟩ := chunk_document_mem hc
    refine ⟨sec, hsec, ?_⟩
    rcases sectionChunks_title hpc with ⟨ht, hcase⟩ | ⟨j, hj, hjlt, hmany, ht⟩
    · exact Or.inl ⟨htitle.trans ht, hcase⟩
    · exact Or.inr ⟨j, hsub.trans hj, hjlt, hmany, htitle.trans ht⟩

theorem chunk_title_spec_witness :
    ∃ sec ∈ wMdSplit ((⟨"u/d", "T", "abcdefgh"⟩ : DocumentIn).markdownContent),
      ((⟨"d_0", "abcd", "A > B (Part 1)", 0, some 0⟩ : ChunkOut).chunkTitle =
          extract_chunk_title sec.meta "T" ∧
        (sec.pageContent.length ≤ 3 ∨ (wSentSplit sec.pageContent).length ≤ 1)) ∨
      (∃ j, (⟨"d_0", "abcd", "A > B (Part 1)", 0, some 0⟩ : ChunkOut).subChunkIndex = some j ∧
        j < (wSentSplit sec.pageContent).length ∧
        1 < (wSentSplit sec.pageContent).length ∧
        (⟨"d_0", "abcd", "A > B (Part 1)", 0, some 0⟩ : ChunkOut).chunkTitle =
          partTitle (extract_chunk_title sec.meta "T") (j + 1)) :=
  (chunk_title_spec 3 wMdSplit wSentSplit).2 ⟨"u/d", "T", "abcdefgh"⟩
    ⟨"d_0", "abcd", "A > B (Part 1)", 0, some 0⟩ (by decide)

/-! ### Claim C7 -/

theorem mkChunkId_injective (p : String) : Function.Injective (mkChunkId p) := by
  intro i j h
  have h2 : (p ++ "_") ++ Nat.repr i = (p ++ "_") ++ Nat.repr j := h
  have h3 := congrArg String.data h2
  simp only [String.data_append] at h3
  have h4 := List.append_cancel_left h3
  exact natRepr_inj (String.ext h4)

/-- C7 counterexample: two documents with distinct URLs whose last path
segments coincide produce colliding chunk ids within one
`process_documents` run. -/
theorem chunk_id_collision_counterexample :
    (process_documents 100 wMdSplit wSentSplit
        [⟨"a/x", "T1", "hi"⟩, ⟨"b/x", "T2", "ho"⟩]).map (fun c => c.id)
      = ["x_0", "x_0"] ∧
    ¬ ((process_documents 100 wMdSplit wSentSplit
        [⟨"a/x", "T1", "hi"⟩, ⟨"b/x", "T2", "ho"⟩]).map (fun c => c.id)).Nodup ∧
    (⟨"a/x", "T1", "hi"⟩ : DocumentIn) ≠ ⟨"b/x", "T2", "ho"⟩ := by
  refine ⟨by decide, by decide, by decide⟩

/-- C7 (amended): within one document the i-th emitted chunk carries id
`urlPart_i` (last URL path segment, underscore, 0-based running count) and
the ids of one document's chunks are pairwise distinct; across documents
in one run ids can collide when two documents share the same last URL path
segment. -/
theorem chunk_id_spec (chunkSize : Nat) (mdSplit : String → List MdSection)
    (sentSplit : String → List String) (doc : DocumentIn) :
    (∀ i (h : i < (chunk_document chunkSize mdSplit sentSplit doc).length),
      ((chunk_document chunkSize mdSplit sentSplit doc).get ⟨i, h⟩).id
        = mkChunkId (urlPart doc.url) i) ∧
    ((chunk_document chunkSize mdSplit sentSplit doc).map (fun c => c.id)).Nodup := by
  constructor
  · intro i h
    by_cases hmd : doc.markdownContent = ""
    · simp [chunk_document, hmd] at h
    · simp only [chunk_document, hmd, if_false, List.get_eq_getElem, List.getElem_map,
        List.getElem_enum]
  · unfold chunk_document
    split
    · simp
    · rw [List.map_map]
      have hmap : ((fun c : ChunkOut => c.id) ∘
          (fun p : Nat × PreChunk =>
            ({ id := mkChunkId (urlPart doc.url) p.1, content := p.2.content,
               chunkTitle := p.2.chunkTitle, chunkIndex := p.1,
               subChunkIndex := p.2.subChunkIndex } : ChunkOut)))
          = (mkChunkId (urlPart doc.url)) ∘ Prod.fst := rfl
      rw [hmap, ← List.map_map]
      exact List.Nodup.map (mkChunkId_injective (urlPart doc.url))
        (List.nodup_enum_map_fst _)

theorem chunk_id_spec_witness :
    0 < (chunk_document 3 wMdSplit wSentSplit ⟨"u/d", "T", "abcdefgh"⟩).length ∧
    ((chunk_document 3 wMdSplit wSentSplit ⟨"u/d", "T", "abcdefgh"⟩).get
        ⟨0, by decide⟩).id = mkChunkId (urlPart "u/d") 0 ∧
    ((chunk_document 3 wMdSplit wSentSplit ⟨"u/d", "T", "abcdefgh"⟩).map
        (fun c => c.id)).Nodup :=
  ⟨by decide,
   (chunk_id_spec 3 wMdSplit wSentSplit ⟨"u/d", "T", "abcdefgh"⟩).1 0 (by decide),
   (chunk_id_spec 3 wMdSplit wSentSplit ⟨"u/d", "T", "abcdefgh"⟩).2⟩

/-! ### StreamProcessor worker loop (`src/pipeline/stream_processor.py`)

Workers drain the shared queue and run `_process_file` on each item; every
counter update happens under `stats_lock`, so the aggregate counts are
independent of the interleaving and the drain is modelled as a fold over
the sequence of dequeued items. -/

/-- The `stats` dictionary of `StreamProcessor`. -/
structure Stats where
  files_processed : Nat
  documents_processed : Nat
  chunks_created : Nat
  embeddings_generated : Nat
  errors : Nat
deriving DecidableEq

/-- All-zero initial statistics. -/
def Stats.init : Stats := ⟨0, 0, 0, 0, 0⟩

/-- One raw item inside a file: it either flows through processing,
chunking and embedding producing `chunks` chunks, or raises somewhere in
its stage sequence. -/
inductive ItemOutcome where
  | ok (chunks : Nat) : ItemOutcome
  | raises : ItemOutcome
deriving DecidableEq

/-- A work item (one raw file): whether `load_raw_data` succeeds, and the
outcomes of the items it contains. -/
structure FileWork where
  loadOk : Bool
  items : List ItemOutcome
deriving DecidableEq

/-- The `for item in raw_data` loop of `_process_file`: per-item counters
are updated as each item completes; an exception aborts the loop,
keeping the increments already made. -/
def processItems (s : Stats) (items : List ItemOutcome) : Stats × Bool :=
  match items with
  | [] => (s, true)
  | .ok k :: rest =>
      processItems
        { s with documents_processed := s.documents_processed + 1,
                 chunks_created := s.chunks_created + k,
                 embeddings_generated := s.embeddings_generated + k } rest
  | .raises :: _ => (s, false)

/-- `StreamProcessor._process_file`: load the raw file, process its items,
and count the file as processed only after every item completed. The
`Bool` records whether an exception escaped to the caller. -/
def process_file (s : Stats) (f : FileWork) : Stats × Bool :=
  if f.loadOk then
    match processItems s f.items with
    | (s', true) => ({ s' with files_processed := s'.files_processed + 1 }, true)
    | (s', false) => (s', false)
  else (s, false)

/-- `StreamProcessor._worker_loop` over the sequence of dequeued items:
a failing item increments `errors` and the loop continues with the next
item. -/
def worker_loop (s : Stats) (files : List FileWork) : Stats :=
  files.foldl
    (fun acc f =>
      match process_file acc f with
      | (s', true) => s'
      | (s', false) => { s' with errors := s'.errors + 1 })
    s

/-- A work item succeeds when its load succeeds and no contained item
raises. -/
def fileSucceeds (f : FileWork) : Bool :=
  f.loadOk && f.items.all (fun d => match d with | .ok _ => true | .raises => false)

theorem processItems_errors (items : List ItemOutcome) :
    ∀ s : Stats, (processItems s items).1.errors = s.errors := by
  induction items with
  | nil => intro s; rfl
  | cons hd tl ih =>
    intro s
    cases hd with
    | ok k => exact ih _
    | raises => rfl

theorem processItems_files (items : List ItemOutcome) :
    ∀ s : Stats, (processItems s items).1.files_processed = s.files_processed := by
  induction items with
  | nil => intro s; rfl
  | cons hd tl ih =>
    intro s
    cases hd with
    | ok k => exact ih _
    | raises => rfl

theorem processItems_snd (items : List ItemOutcome) :
    ∀ s : Stats, (processItems s items).2 =
      items.all (fun d => match d with | .ok _ => true | .raises => false) := by
  induction items with
  | nil => intro s; rfl
  | cons hd tl ih =>
    intro s
    cases hd with
    | ok k => simpa using ih _
    | raises => simp [processItems]

theorem process_file_spec (s : Stats) (f : FileWork) :
    (process_file s f).2 = fileSucceeds f ∧
    (process_file s f).1.errors = s.errors ∧
    (process_file s f).1.files_processed =
      s.files_processed + (if fileSucceeds f then 1 else 0) := by
  unfold process_file fileSucceeds
  by_cases hl : f.loadOk
  · simp only [hl, if_true, Bool.true_and]
    rcases hp : processItems s f.items with ⟨s', b⟩
    have hb : b = f.items.all (fun d => match d with | .ok _ => true | .raises => false) := by
      have := processItems_snd f.items s
      rw [hp] at this
      exact this
    have herr : s'.errors = s.errors := by
      have := processItems_errors f.items s
      rw [hp] at this
      exact this
    have hfp : s'.files_processed = s.files_processed := by
      have := processItems_files f.items s
      rw [hp] at this
      exact this
    cases b with
    | true => simp [← hb, herr, hfp]
    | false => simp [← hb, herr, hfp]
  · simp [hl]

/-! ### Claim C3 -/

/-- C3: over any sequence of dequeued work items, each succeeding item
adds exactly one to `files_processed` and each failing item adds exactly
one to `errors` (leaving `files_processed` unchanged), failures never stop
the loop, and in particular 50 items of which every 5th fails yield
`errors = 10` and `files_processed = 40`. -/
theorem worker_loop_error_isolation (s : Stats) (files : List FileWork) :
    (worker_loop s files).files_processed =
      s.files_processed + files.countP fileSucceeds ∧
    (worker_loop s files).errors =
      s.errors + files.countP (fun f => !fileSucceeds f) ∧
    (∀ f : FileWork,
      (worker_loop s [f]).errors = s.errors + (if fileSucceeds f then 0 else 1) ∧
      (worker_loop s [f]).files_processed =
        s.files_processed + (if fileSucceeds f then 1 else 0)) ∧
    (worker_loop Stats.init ((List.range 50).map
        (fun i => ⟨true, [if (i + 1) % 5 = 0 then .raises else .ok 1]⟩))).errors = 10 ∧
    (worker_loop Stats.init ((List.range 50).map
        (fun i => ⟨true, [if (i + 1) % 5 = 0 then .raises else .ok 1]⟩))).files_processed
      = 40 := by
  have main : ∀ (fs : List FileWork) (t : Stats),
      (worker_loop t fs).files_processed = t.files_processed + fs.countP fileSucceeds ∧
      (worker_loop t fs).errors = t.errors + fs.countP (fun f => !fileSucceeds f) := by
    intro fs
    induction fs with
    | nil => intro t; simp [worker_loop]
    | cons f tl ih =>
      intro t
      obtain ⟨h2, herr, hfp⟩ := process_file_spec t f
      rcases hp : process_file t f with ⟨s', b⟩
      rw [hp] at h2 herr hfp
      simp only at h2 herr hfp
      cases b with
      | true =>
        have hsf : fileSucceeds f = true := h2.symm
        have hstep : worker_loop t (f :: tl) = worker_loop s' tl := by
          simp [worker_loop, List.foldl_cons, hp]
        rw [hstep]
        obtain ⟨ihf, ihe⟩ := ih s'
        rw [hsf] at hfp
        simp only [if_true] at hfp
        refine ⟨?_, ?_⟩
        · rw [ihf, hfp, List.countP_cons, hsf]
          simp
          omega
        · rw [ihe, herr, List.countP_cons, hsf]
          simp
      | false =>
        have hsf : fileSucceeds f = false := h2.symm
        have hstep : worker_loop t (f :: tl) =
            worker_loop { s' with errors := s'.errors + 1 } tl := by
          simp [worker_loop, List.foldl_cons, hp]
        rw [hstep]
        obtain ⟨ihf, ihe⟩ := ih { s' with errors := s'.errors + 1 }
        rw [hsf] at hfp
        simp at hfp
        refine ⟨?_, ?_⟩
        · rw [ihf]
          simp only [List.countP_cons, hsf]
          simp [hfp]
        · rw [ihe]
          simp only [List.countP_cons, hsf]
          simp [herr]
          omega
  refine ⟨(main files s).1, (main files s).2, ?_, by decide, by decide⟩
  intro f
  refine ⟨?_, ?_⟩
  · rw [(main [f] s).2]
    cases hf : fileSucceeds f <;> simp [List.countP_cons, hf]
  · rw [(main [f] s).1]
    cases hf : fileSucceeds f <;> simp [List.countP_cons, hf]

/-! ### EmbeddingGenerator (`src/embeddings/generator.py`) with
`validate_embedding` (`src/utils/validators.py`)

The provider is an external collaborator: a function from a batch of
texts to the values it returns, one per text.  A returned value may fail
`validate_embedding` by not being a list, being empty, or containing a
non-number. -/

/-- An element of a provider-returned list: a number or something else. -/
inductive EmbElem where
  | num (x : Int) : EmbElem
  | notNum : EmbElem
deriving DecidableEq

/-- A provider-returned value: a list of elements, or a non-list value. -/
inductive EmbValue where
  | vec (xs : List EmbElem) : EmbValue
  | notList : EmbValue
deriving DecidableEq

/-- `validate_embedding`: a non-empty list whose elements are all
numbers. -/
def validate_embedding (e : EmbValue) : Bool :=
  match e with
  | .notList => false
  | .vec xs => !xs.isEmpty && xs.all (fun x => match x with | .num _ => true | .notNum => false)

/-- Length of a list-valued embedding. -/
def embLen (e : EmbValue) : Option Nat :=
  match e with
  | .vec xs => some xs.length
  | .notList => none

/-- The `[0.0] * dimension` fallback vector. -/
def zeroEmbedding (dim : Nat) : EmbValue :=
  .vec (List.replicate dim (.num 0))

/-- A chunk as seen by `process_chunks`: its id, the content that is
embedded, and the `embedding` key once attached. -/
structure EmbChunk where
  id : String
  content : String
  embedding : Option EmbValue := none
deriving DecidableEq

/-- Slices `texts[i : i + batchSize]` for `i = 0, batchSize, ...`, the
batching loop of `process_chunks`. -/
def toBatches (batchSize : Nat) (l : List α) : List (List α) :=
  match l with
  | [] => []
  | x :: xs => (x :: xs.take (batchSize - 1)) :: toBatches batchSize (xs.drop (batchSize - 1))
termination_by l.length
decreasing_by
  simp only [List.length_drop, List.length_cons]
  omega

theorem toBatches_flatten (batchSize : Nat) (l : List α) :
    (toBatches batchSize l).flatten = l := by
  induction l using toBatches.induct batchSize with
  | case1 =>
    rw [toBatches]
    rfl
  | case2 x xs ih =>
    rw [toBatches]
    simp only [List.flatten_cons, ih, List.cons_append]
    rw [List.take_append_drop]

/-- All embeddings for the chunk texts, gathered batch by batch
(`all_embeddings.extend(batch_embeddings)`). -/
def generateEmbeddingsBatched (provider : List String → List EmbValue)
    (batchSize : Nat) (texts : List String) : List EmbValue :=
  ((toBatches batchSize texts).map provider).flatten

/-- `EmbeddingGenerator.process_chunks`: embed all chunk contents in
batches, then attach to each chunk its validated vector or the
dimension-matched zero fallback.  `none` models the `IndexError` raised
when the provider returned fewer values than there are chunks. -/
def process_chunks (dim : Nat) (provider : List String → List EmbValue)
    (batchSize : Nat) (chunks : List EmbChunk) : Option (List EmbChunk) :=
  if chunks.isEmpty then some []
  else
    let texts := chunks.map (fun c => c.content)
    let allEmbeddings := generateEmbeddingsBatched provider batchSize texts
    if chunks.length ≤ allEmbeddings.length then
      some (chunks.zipWith
        (fun c e =>
          { c with embedding := some (if validate_embedding e then e else zeroEmbedding dim) })
        allEmbeddings)
    else none

theorem flatten_map_length {provider : List String → List EmbValue}
    (hp : ∀ ts, (provider ts).length = ts.length) (batches : List (List String)) :
    ((batches.map provider).flatten).length = batches.flatten.length := by
  induction batches with
  | nil => rfl
  | cons b tl ih => simp [List.flatten_cons, hp, ih]

theorem generateEmbeddingsBatched_length {provider : List String → List EmbValue}
    (hp : ∀ ts, (provider ts).length = ts.length) (batchSize : Nat)
    (texts : List String) :
    (generateEmbeddingsBatched provider batchSize texts).length = texts.length := by
  unfold generateEmbeddingsBatched
  rw [flatten_map_length hp, toBatches_flatten]

theorem mem_flatten_map {provider : List String → List EmbValue}
    {batches : List (List String)} {e : EmbValue}
    (h : e ∈ (batches.map provider).flatten) : ∃ ts ∈ batches, e ∈ provider ts := by
  rw [List.mem_flatten] at h
  obtain ⟨l, hl, he⟩ := h
  rw [List.mem_map] at hl
  obtain ⟨ts, hts, rfl⟩ := hl
  exact ⟨ts, hts, he⟩

/-! ### Claim C9 -/

/-- C9: when the provider returns one value per text and every value it
returns that passes validation has the model dimension, `process_chunks`
succeeds, attaches an embedding to every chunk — the provider value when
it validates, the dimension-matched zero vector otherwise — and every
chunk in the result carries an embedding whose length equals the model
dimension. -/
theorem process_chunks_embedding_spec (dim : Nat)
    (provider : List String → List EmbValue) (batchSize : Nat)
    (chunks : List EmbChunk)
    (hp : ∀ ts, (provider ts).length = ts.length)
    (hdim : ∀ ts, ∀ e ∈ provider ts, validate_embedding e = true → embLen e = some dim) :
    ∃ out, process_chunks dim provider batchSize chunks = some out ∧
      out.length = chunks.length ∧
      (∀ i (hi : i < out.length) (hc : i < chunks.length)
          (he : i < (generateEmbeddingsBatched provider batchSize
            (chunks.map (fun c => c.content))).length),
        out.get ⟨i, hi⟩ =
          { chunks.get ⟨i, hc⟩ with
            embedding := some
              (if validate_embedding ((generateEmbeddingsBatched provider batchSize
                  (chunks.map (fun c => c.content))).get ⟨i, he⟩)
               then (generateEmbeddingsBatched provider batchSize
                  (chunks.map (fun c => c.content))).get ⟨i, he⟩
               else zeroEmbedding dim) }) ∧
      (∀ c ∈ out, ∃ e, c.embedding = some e ∧ embLen e = some dim ∧
        (validate_embedding e = true ∨ e = zeroEmbedding dim)) := by
  by_cases hempty : chunks.isEmpty
  · refine ⟨[], ?_, ?_, ?_, ?_⟩
    · simp [process_chunks, hempty]
    · rw [List.isEmpty_iff.mp hempty]
    · intro i hi
      simp at hi
    · intro c hc
      simp at hc
  · set allE := generateEmbeddingsBatched provider batchSize
      (chunks.map (fun c => c.content)) with hallE
    have hlen : allE.length = chunks.length := by
      rw [hallE, generateEmbeddingsBatched_length hp, List.length_map]
    have hle : chunks.length ≤ allE.length := le_of_eq hlen.symm
    set out := chunks.zipWith
      (fun c e =>
        { c with embedding := some (if validate_embedding e then e else zeroEmbedding dim) })
      allE with hout
    have houtlen : out.length = chunks.length := by
      rw [hout, List.length_zipWith]
      omega
    have hvalid : ∀ e ∈ allE, validate_embedding e = true → embLen e = some dim := by
      intro e he hv
      have : ∃ ts ∈ toBatches batchSize (chunks.map (fun c => c.content)), e ∈ provider ts :=
        mem_flatten_map he
      obtain ⟨ts, -, hets⟩ := this
      exact hdim ts e hets hv
    refine ⟨out, ?_, houtlen, ?_, ?_⟩
    · simp only [process_chunks, hempty, if_false, Bool.false_eq_true, ← hallE, hle, if_true,
        ← hout]
    · intro i hi hc he
      rw [List.get_eq_getElem, List.get_eq_getElem, List.get_eq_getElem]
      exact List.getElem_zipWith
    · intro c hc
      rw [hout] at hc
      rw [List.mem_iff_get] at hc
      obtain ⟨⟨i, hilt⟩, hget⟩ := hc
      have hie : i < allE.length := by
        rw [List.length_zipWith] at hilt
        omega
      rw [List.get_eq_getElem, List.getElem_zipWith] at hget
      set e0 := allE[i] with he0
      refine ⟨if validate_embedding e0 then e0 else zeroEmbedding dim, ?_, ?_, ?_⟩
      · rw [← hget]
      · by_cases hv : validate_embedding e0 = true
        · rw [if_pos hv]
          exact hvalid e0 (List.getElem_mem hie) hv
        · rw [if_neg hv]
          simp [embLen, zeroEmbedding]
      · by_cases hv : validate_embedding e0 = true
        · exact Or.inl (by rw [if_pos hv]; exact hv)
        · exact Or.inr (by rw [if_neg hv])

/-- Provider used for the concrete instance: a two-number vector for
ordinary texts and a non-list value for the text "bad". -/
def wProvider : List String → List EmbValue :=
  fun ts => ts.map (fun t => if t = "bad" then .notList else .vec [.num 1, .num 2])

theorem process_chunks_embedding_spec_witness :
    ∃ out, process_chunks 2 wProvider 10
        [⟨"c0", "good", none⟩, ⟨"c1", "bad", none⟩] = some out ∧
      out.length = ([⟨"c0", "good", none⟩, ⟨"c1", "bad", none⟩] : List EmbChunk).length ∧
      (∀ i (hi : i < out.length)
          (hc : i < ([⟨"c0", "good", none⟩, ⟨"c1", "bad", none⟩] : List EmbChunk).length)
          (he : i < (generateEmbeddingsBatched wProvider 10
            (([⟨"c0", "good", none⟩, ⟨"c1", "bad", none⟩] : List EmbChunk).map
              (fun c => c.content))).length),
        out.get ⟨i, hi⟩ =
          { ([⟨"c0", "good", none⟩, ⟨"c1", "bad", none⟩] : List EmbChunk).get ⟨i, hc⟩ with
            embedding := some
              (if validate_embedding ((generateEmbeddingsBatched wProvider 10
                  (([⟨"c0", "good", none⟩, ⟨"c1", "bad", none⟩] : List EmbChunk).map
                    (fun c => c.content))).get ⟨i, he⟩)
               then (generateEmbeddingsBatched wProvider 10
                  (([⟨"c0", "good", none⟩, ⟨"c1", "bad", none⟩] : List EmbChunk).map
                    (fun c => c.content))).get ⟨i, he⟩
               else zeroEmbedding 2) }) ∧
      (∀ c ∈ out, ∃ e, c.embedding = some e ∧ embLen e = some 2 ∧
        (validate_embedding e = true ∨ e = zeroEmbedding 2)) :=
  process_chunks_embedding_spec 2 wProvider 10
    [⟨"c0", "good", none⟩, ⟨"c1", "bad", none⟩]
    (by intro ts; simp [wProvider])
    (by
      intro ts e he hv
      simp only [wProvider, List.mem_map] at he
      obtain ⟨t, -, rfl⟩ := he
      by_cases ht : t = "bad"
      · rw [if_pos ht] at hv
        simp [validate_embedding] at hv
      · rw [if_neg ht]
        rfl)

/-! ### Incremental sync (`src/integrations/pinecone/client.py` and
`src/integrations/llamaindex/client.py`)

Both clients partition the incoming chunks by `change_status` and then
talk to the downstream index; the index calls are collaborator calls,
modelled by success flags (`upsert_vectors` for new chunks, delete,
`upsert_vectors` for updated chunks).  The result record additionally logs
which chunks were handed to a successful upload call and which ids to a
successful delete call, so that transmission can be reasoned about. -/

/-- A chunk at the sync interface.  The only metadata key the sync code
reads is `change_status`, and a missing or falsy embedding is modelled by
the empty list. -/
structure SyncChunk where
  id : String
  embedding : List Int
  content : String
  change_status : Option String
deriving DecidableEq

/-- `chunk.get("metadata", {}).get("change_status", "new")`. -/
def chunkStatus (c : SyncChunk) : String :=
  c.change_status.getD "new"

/-- The `new_chunks` bucket of the categorization loop. -/
def newChunksOf (l : List SyncChunk) : List SyncChunk :=
  l.filter (fun c => chunkStatus c = "new")

/-- The `updated_chunks` bucket of the categorization loop. -/
def updatedChunksOf (l : List SyncChunk) : List SyncChunk :=
  l.filter (fun c => chunkStatus c = "updated")

/-- The `unchanged_chunks` bucket (the `else` branch: any status other
than "new" and "updated"). -/
def unchangedChunksOf (l : List SyncChunk) : List SyncChunk :=
  l.filter (fun c => chunkStatus c ≠ "new" ∧ chunkStatus c ≠ "updated")

/-- Python truthiness of `chunk.get("embedding") or chunk.get("embeddings")`. -/
def hasEmbedding (c : SyncChunk) : Bool :=
  !c.embedding.isEmpty

/-- A vector as sent to Pinecone. -/
structure PineconeVector where
  id : String
  values : List Int
deriving DecidableEq

/-- `PineconeClient._format_chunks_for_pinecone`: chunks without an
embedding are skipped with a warning; metadata sanitization does not
affect id or values. -/
def formatChunksForPinecone (chunks : List SyncChunk) : List PineconeVector :=
  (chunks.filter hasEmbedding).map (fun c => ⟨c.id, c.embedding⟩)

/-- Result dict of a sync run, extended with a log of the chunks handed
to a successful upload call and the ids handed to a successful delete
call.  `deleted_count` mirrors the source, which never updates it. -/
structure SyncResult where
  total_chunks : Nat
  new_count : Nat
  updated_count : Nat
  unchanged_count : Nat
  deleted_count : Nat
  errors : List String
  uploaded : List SyncChunk
  deletedIds : List String
deriving DecidableEq

/-- The `results` dict as initialized before any index call. -/
def syncBase (chunks : List SyncChunk) : SyncResult :=
  { total_chunks := chunks.length, new_count := 0, updated_count := 0,
    unchanged_count := (unchangedChunksOf chunks).length, deleted_count := 0,
    errors := [], uploaded := [], deletedIds := [] }

/-- State after the "upload new chunks" block: on success
`new_count := upserted_count` (the number of vectors sent); on failure the
error is recorded. -/
def syncAfterNew (chunks : List SyncChunk) (newUpsertOk : Bool) : SyncResult :=
  if (newChunksOf chunks).isEmpty then syncBase chunks
  else if newUpsertOk then
    { syncBase chunks with
      new_count := (formatChunksForPinecone (newChunksOf chunks)).length,
      uploaded := (syncBase chunks).uploaded ++ (newChunksOf chunks).filter hasEmbedding }
  else { syncBase chunks with errors := (syncBase chunks).errors ++ ["Failed to upload new chunks"] }

/-- `chunk_ids_to_delete`: ids of the updated chunks, skipping falsy ids. -/
def idsToDeleteOf (chunks : List SyncChunk) : List String :=
  ((updatedChunksOf chunks).map (fun c => c.id)).filter (fun s => s ≠ "")

/-- State after the delete block for updated chunks: a delete failure is
logged as a warning and recorded, and does not abort the sync. -/
def syncAfterDelete (chunks : List SyncChunk) (newUpsertOk deleteOk : Bool) : SyncResult :=
  if (idsToDeleteOf chunks).isEmpty then syncAfterNew chunks newUpsertOk
  else if deleteOk then
    { syncAfterNew chunks newUpsertOk with
      deletedIds := (syncAfterNew chunks newUpsertOk).deletedIds ++ idsToDeleteOf chunks }
  else
    { syncAfterNew chunks newUpsertOk with
      errors := (syncAfterNew chunks newUpsertOk).errors ++ ["Failed to delete old versions"] }

/-- `PineconeClient.sync_documents`: categorize, upload new chunks,
delete-then-reupload updated chunks (a delete failure is recorded and does
not block the reupload), count unchanged chunks without transmitting
them.  Written as the composition of the source's sequential blocks. -/
def sync_documents (chunks : List SyncChunk)
    (newUpsertOk updUpsertOk deleteOk : Bool) : SyncResult :=
  if (updatedChunksOf chunks).isEmpty then syncAfterNew chunks newUpsertOk
  else if updUpsertOk then
    { syncAfterDelete chunks newUpsertOk deleteOk with
      updated_count := (formatChunksForPinecone (updatedChunksOf chunks)).length,
      uploaded := (syncAfterDelete chunks newUpsertOk deleteOk).uploaded ++
        (updatedChunksOf chunks).filter hasEmbedding }
  else
    { syncAfterDelete chunks newUpsertOk deleteOk with
      errors := (syncAfterDelete chunks newUpsertOk deleteOk).errors ++
        ["Failed to upload updated chunks"] }

/-- `LlamaIndexClient.sync_documents`, "upload new documents" block:
documents are uploaded in batches of `batchSize`, `new_count` grows by
`len(batch)` per successful batch.  A single outcome flag stands for the
per-batch collaborator outcomes, taken uniform. -/
def llamaAfterNew (docs : List SyncChunk) (batchSize : Nat) (ok : Bool) : SyncResult :=
  if (newChunksOf docs).isEmpty then syncBase docs
  else if ok then
    (toBatches batchSize (newChunksOf docs)).foldl
      (fun r batch =>
        { r with new_count := r.new_count + batch.length,
                 uploaded := r.uploaded ++ batch })
      (syncBase docs)
  else
    (toBatches batchSize (newChunksOf docs)).foldl
      (fun r _ => { r with errors := r.errors ++ ["new batch failed"] })
      (syncBase docs)

/-- `LlamaIndexClient.sync_documents`, delete block for updated
documents: ids are deleted in batches inside one try, and a failure is
recorded without aborting the sync. -/
def llamaAfterDelete (docs : List SyncChunk) (batchSize : Nat)
    (newOk deleteOk : Bool) : SyncResult :=
  if (idsToDeleteOf docs).isEmpty then llamaAfterNew docs batchSize newOk
  else if deleteOk then
    (toBatches batchSize (idsToDeleteOf docs)).foldl
      (fun r b => { r with deletedIds := r.deletedIds ++ b })
      (llamaAfterNew docs batchSize newOk)
  else
    { llamaAfterNew docs batchSize newOk with
      errors := (llamaAfterNew docs batchSize newOk).errors ++
        ["Failed to delete old versions"] }

/-- `LlamaIndexClient.sync_documents`: the same partition as the Pinecone
client, with uploads and deletes issued in batches and counts accumulated
per successful batch. -/
def llama_sync_documents (docs : List SyncChunk) (batchSize : Nat)
    (upNewOk upUpdOk deleteOk : Bool) : SyncResult :=
  if (updatedChunksOf docs).isEmpty then llamaAfterNew docs batchSize upNewOk
  else if upUpdOk then
    (toBatches batchSize (updatedChunksOf docs)).foldl
      (fun r batch =>
        { r with updated_count := r.updated_count + batch.length,
                 uploaded := r.uploaded ++ batch })
      (llamaAfterDelete docs batchSize upNewOk deleteOk)
  else
    (toBatches batchSize (updatedChunksOf docs)).foldl
      (fun r _ => { r with errors := r.errors ++ ["updated batch failed"] })
      (llamaAfterDelete docs batchSize upNewOk deleteOk)

theorem foldl_new_batches (B : List (List SyncChunk)) :
    ∀ r : SyncResult,
      B.foldl (fun r batch =>
        { r with new_count := r.new_count + batch.length,
                 uploaded := r.uploaded ++ batch }) r
      = { r with new_count := r.new_count + B.flatten.length,
                 uploaded := r.uploaded ++ B.flatten } := by
  induction B with
  | nil => intro r; simp
  | cons b tl ih =>
    intro r
    simp only [List.foldl_cons, ih, List.flatten_cons, List.length_append,
      List.append_assoc, Nat.add_assoc]

theorem foldl_upd_batches (B : List (List SyncChunk)) :
    ∀ r : SyncResult,
      B.foldl (fun r batch =>
        { r with updated_count := r.updated_count + batch.length,
                 uploaded := r.uploaded ++ batch }) r
      = { r with updated_count := r.updated_count + B.flatten.length,
                 uploaded := r.uploaded ++ B.flatten } := by
  induction B with
  | nil => intro r; simp
  | cons b tl ih =>
    intro r
    simp only [List.foldl_cons, ih, List.flatten_cons, List.length_append,
      List.append_assoc, Nat.add_assoc]

theorem foldl_del_batches (B : List (List String)) :
    ∀ r : SyncResult,
      B.foldl (fun r b => { r with deletedIds := r.deletedIds ++ b }) r
      = { r with deletedIds := r.deletedIds ++ B.flatten } := by
  induction B with
  | nil => intro r; simp
  | cons b tl ih =>
    intro r
    simp only [List.foldl_cons, ih, List.flatten_cons, List.append_assoc]

theorem syncAfterNew_total (chunks : List SyncChunk) (a : Bool) :
    (syncAfterNew chunks a).total_chunks = chunks.length := by
  unfold syncAfterNew syncBase
  repeat' split
  all_goals rfl

theorem syncAfterNew_unchanged (chunks : List SyncChunk) (a : Bool) :
    (syncAfterNew chunks a).unchanged_count = (unchangedChunksOf chunks).length := by
  unfold syncAfterNew syncBase
  repeat' split
  all_goals rfl

theorem syncAfterNew_updated_count (chunks : List SyncChunk) (a : Bool) :
    (syncAfterNew chunks a).updated_count = 0 := by
  unfold syncAfterNew syncBase
  repeat' split
  all_goals rfl

theorem syncAfterNew_deletedIds (chunks : List SyncChunk) (a : Bool) :
    (syncAfterNew chunks a).deletedIds = [] := by
  unfold syncAfterNew syncBase
  repeat' split
  all_goals rfl

theorem syncAfterNew_new_count (chunks : List SyncChunk) :
    (syncAfterNew chunks true).new_count
      = (formatChunksForPinecone (newChunksOf chunks)).length := by
  unfold syncAfterNew syncBase
  split
  · rename_i h
    simp [List.isEmpty_iff.mp h, formatChunksForPinecone]
  · rfl

theorem syncAfterNew_uploaded (chunks : List SyncChunk) :
    (syncAfterNew chunks true).uploaded = (newChunksOf chunks).filter hasEmbedding := by
  unfold syncAfterNew syncBase
  split
  · rename_i h
    simp [List.isEmpty_iff.mp h]
  · rfl

theorem syncAfterNew_errors (chunks : List SyncChunk) :
    (syncAfterNew chunks true).errors = [] := by
  unfold syncAfterNew syncBase
  repeat' split
  all_goals first | rfl | simp_all

theorem syncAfterDelete_total (chunks : List SyncChunk) (a c : Bool) :
    (syncAfterDelete chunks a c).total_chunks = chunks.length := by
  unfold syncAfterDelete
  repeat' split
  all_goals simp [syncAfterNew_total]

theorem syncAfterDelete_unchanged (chunks : List SyncChunk) (a c : Bool) :
    (syncAfterDelete chunks a c).unchanged_count = (unchangedChunksOf chunks).length := by
  unfold syncAfterDelete
  repeat' split
  all_goals simp [syncAfterNew_unchanged]

theorem syncAfterDelete_updated_count (chunks : List SyncChunk) (a c : Bool) :
    (syncAfterDelete chunks a c).updated_count = 0 := by
  unfold syncAfterDelete
  repeat' split
  all_goals simp [syncAfterNew_updated_count]

theorem syncAfterDelete_new_count (chunks : List SyncChunk) (c : Bool) :
    (syncAfterDelete chunks true c).new_count
      = (formatChunksForPinecone (newChunksOf chunks)).length := by
  unfold syncAfterDelete
  repeat' split
  all_goals simp [syncAfterNew_new_count]

theorem syncAfterDelete_uploaded (chunks : List SyncChunk) (c : Bool) :
    (syncAfterDelete chunks true c).uploaded = (newChunksOf chunks).filter hasEmbedding := by
  unfold syncAfterDelete
  repeat' split
  all_goals simp [syncAfterNew_uploaded]

theorem syncAfterDelete_deletedIds_ok (chunks : List SyncChunk) (a : Bool) :
    (syncAfterDelete chunks a true).deletedIds = idsToDeleteOf chunks := by
  unfold syncAfterDelete
  split
  · rename_i h
    simp [syncAfterNew_deletedIds, List.isEmpty_iff.mp h]
  · simp [syncAfterNew_deletedIds]

theorem syncAfterDelete_deletedIds_fail (chunks : List SyncChunk) (a : Bool) :
    (syncAfterDelete chunks a false).deletedIds = [] := by
  unfold syncAfterDelete
  repeat' split
  all_goals simp_all [syncAfterNew_deletedIds]

theorem syncAfterDelete_errors_ok (chunks : List SyncChunk) :
    (syncAfterDelete chunks true true).errors = [] := by
  unfold syncAfterDelete
  repeat' split
  all_goals simp_all [syncAfterNew_errors]

theorem syncAfterDelete_errors_fail (chunks : List SyncChunk)
    (hids : idsToDeleteOf chunks ≠ []) :
    (syncAfterDelete chunks true false).errors = ["Failed to delete old versions"] := by
  unfold syncAfterDelete
  split
  · rename_i h
    exact absurd (List.isEmpty_iff.mp h) hids
  · simp [syncAfterNew_errors]

theorem sync_documents_total (chunks : List SyncChunk) (a b c : Bool) :
    (sync_documents chunks a b c).total_chunks = chunks.length := by
  unfold sync_documents
  repeat' split
  all_goals simp [syncAfterNew_total, syncAfterDelete_total]

theorem sync_documents_unchanged (chunks : List SyncChunk) (a b c : Bool) :
    (sync_documents chunks a b c).unchanged_count = (unchangedChunksOf chunks).length := by
  unfold sync_documents
  repeat' split
  all_goals simp [syncAfterNew_unchanged, syncAfterDelete_unchanged]

theorem sync_documents_new_count (chunks : List SyncChunk) (b c : Bool) :
    (sync_documents chunks true b c).new_count
      = (formatChunksForPinecone (newChunksOf chunks)).length := by
  unfold sync_documents
  repeat' split
  all_goals simp [syncAfterNew_new_count, syncAfterDelete_new_count]

theorem sync_documents_updated_count (chunks : List SyncChunk) (a c : Bool) :
    (sync_documents chunks a true c).updated_count
      = (formatChunksForPinecone (updatedChunksOf chunks)).length := by
  unfold sync_documents
  split
  · rename_i h
    simp [syncAfterNew_updated_count, List.isEmpty_iff.mp h, formatChunksForPinecone]
  · split
    · rfl
    · simp at *

theorem sync_documents_uploaded (chunks : List SyncChunk) (c : Bool) :
    (sync_documents chunks true true c).uploaded
      = (newChunksOf chunks).filter hasEmbedding ++
        (updatedChunksOf chunks).filter hasEmbedding := by
  unfold sync_documents
  split
  · rename_i h
    simp [syncAfterNew_uploaded, List.isEmpty_iff.mp h]
  · simp [syncAfterDelete_uploaded]

theorem sync_documents_deletedIds_ok (chunks : List SyncChunk) (a b : Bool) :
    (sync_documents chunks a b true).deletedIds = idsToDeleteOf chunks := by
  unfold sync_documents
  split
  · rename_i h
    simp [syncAfterNew_deletedIds, idsToDeleteOf, List.isEmpty_iff.mp h]
  · split
    · simp [syncAfterDelete_deletedIds_ok]
    · simp [syncAfterDelete_deletedIds_ok]

theorem sync_documents_deletedIds_fail (chunks : List SyncChunk) (a b : Bool) :
    (sync_documents chunks a b false).deletedIds = [] := by
  unfold sync_documents
  repeat' split
  all_goals simp [syncAfterNew_deletedIds, syncAfterDelete_deletedIds_fail]

theorem sync_documents_errors_ok (chunks : List SyncChunk) :
    (sync_documents chunks true true true).errors = [] := by
  unfold sync_documents
  repeat' split
  all_goals simp_all [syncAfterNew_errors, syncAfterDelete_errors_ok]

theorem sync_documents_errors_delete_fail (chunks : List SyncChunk)
    (hids : idsToDeleteOf chunks ≠ []) :
    (sync_documents chunks true true false).errors = ["Failed to delete old versions"] := by
  unfold sync_documents
  split
  · rename_i h
    have : idsToDeleteOf chunks = [] := by
      simp [idsToDeleteOf, List.isEmpty_iff.mp h]
    exact absurd this hids
  · simp [syncAfterDelete_errors_fail chunks hids]

theorem llamaAfterNew_eval (docs : List SyncChunk) (bs : Nat) :
    llamaAfterNew docs bs true =
      { syncBase docs with new_count := (newChunksOf docs).length,
                           uploaded := newChunksOf docs } := by
  unfold llamaAfterNew
  split
  · rename_i h
    simp [List.isEmpty_iff.mp h, syncBase]
  · rw [if_pos rfl, foldl_new_batches, toBatches_flatten]
    simp [syncBase]

theorem llamaAfterDelete_eval_ok (docs : List SyncChunk) (bs : Nat) :
    llamaAfterDelete docs bs true true =
      { syncBase docs with new_count := (newChunksOf docs).length,
                           uploaded := newChunksOf docs,
                           deletedIds := idsToDeleteOf docs } := by
  unfold llamaAfterDelete
  split
  · rename_i h
    rw [llamaAfterNew_eval]
    simp [List.isEmpty_iff.mp h, syncBase]
  · rw [if_pos rfl, foldl_del_batches, toBatches_flatten, llamaAfterNew_eval]
    simp [syncBase]

theorem llamaAfterDelete_eval_fail (docs : List SyncChunk) (bs : Nat)
    (h : idsToDeleteOf docs ≠ []) :
    llamaAfterDelete docs bs true false =
      { syncBase docs with new_count := (newChunksOf docs).length,
                           uploaded := newChunksOf docs,
                           errors := ["Failed to delete old versions"] } := by
  unfold llamaAfterDelete
  split
  · rename_i hids
    exact absurd (List.isEmpty_iff.mp hids) h
  · rw [llamaAfterNew_eval]
    simp [syncBase]

theorem llama_sync_eval_ok (docs : List SyncChunk) (bs : Nat) :
    llama_sync_documents docs bs true true true =
      { total_chunks := docs.length, new_count := (newChunksOf docs).length,
        updated_count := (updatedChunksOf docs).length,
        unchanged_count := (unchangedChunksOf docs).length, deleted_count := 0,
        errors := [], uploaded := newChunksOf docs ++ updatedChunksOf docs,
        deletedIds := idsToDeleteOf docs } := by
  unfold llama_sync_documents
  split
  · rename_i h
    have h' := List.isEmpty_iff.mp h
    rw [llamaAfterNew_eval]
    simp [syncBase, h', idsToDeleteOf]
  · rw [if_pos rfl, foldl_upd_batches, toBatches_flatten, llamaAfterDelete_eval_ok]
    simp [syncBase]

theorem llama_sync_eval_delete_fail (docs : List SyncChunk) (bs : Nat)
    (h : idsToDeleteOf docs ≠ []) :
    llama_sync_documents docs bs true true false =
      { total_chunks := docs.length, new_count := (newChunksOf docs).length,
        updated_count := (updatedChunksOf docs).length,
        unchanged_count := (unchangedChunksOf docs).length, deleted_count := 0,
        errors := ["Failed to delete old versions"],
        uploaded := newChunksOf docs ++ updatedChunksOf docs,
        deletedIds := [] } := by
  unfold llama_sync_documents
  split
  · rename_i hupd
    have hupd' := List.isEmpty_iff.mp hupd
    exact absurd (by simp [idsToDeleteOf, hupd']) h
  · rw [if_pos rfl, foldl_upd_batches, toBatches_flatten, llamaAfterDelete_eval_fail docs bs h]
    simp [syncBase]

theorem llamaAfterDelete_eval_noids (docs : List SyncChunk) (bs : Nat) (dOk : Bool)
    (h : idsToDeleteOf docs = []) :
    llamaAfterDelete docs bs true dOk = llamaAfterNew docs bs true := by
  unfold llamaAfterDelete
  rw [if_pos (List.isEmpty_iff.mpr h)]

theorem llama_sync_eval_noids (docs : List SyncChunk) (bs : Nat) (dOk : Bool)
    (h : idsToDeleteOf docs = []) :
    llama_sync_documents docs bs true true dOk =
      { total_chunks := docs.length, new_count := (newChunksOf docs).length,
        updated_count := (updatedChunksOf docs).length,
        unchanged_count := (unchangedChunksOf docs).length, deleted_count := 0,
        errors := [], uploaded := newChunksOf docs ++ updatedChunksOf docs,
        deletedIds := [] } := by
  unfold llama_sync_documents
  split
  · rename_i hupd
    have hupd' := List.isEmpty_iff.mp hupd
    rw [llamaAfterNew_eval]
    simp [syncBase, hupd']
  · rw [if_pos rfl, foldl_upd_batches, toBatches_flatten,
      llamaAfterDelete_eval_noids docs bs dOk h, llamaAfterNew_eval]
    simp [syncBase]

theorem llama_sync_new_count (docs : List SyncChunk) (bs : Nat) (dOk : Bool) :
    (llama_sync_documents docs bs true true dOk).new_count = (newChunksOf docs).length := by
  by_cases h : idsToDeleteOf docs = []
  · rw [llama_sync_eval_noids docs bs dOk h]
  · cases dOk
    · rw [llama_sync_eval_delete_fail docs bs h]
    · rw [llama_sync_eval_ok]

theorem llama_sync_updated_count (docs : List SyncChunk) (bs : Nat) (dOk : Bool) :
    (llama_sync_documents docs bs true true dOk).updated_count
      = (updatedChunksOf docs).length := by
  by_cases h : idsToDeleteOf docs = []
  · rw [llama_sync_eval_noids docs bs dOk h]
  · cases dOk
    · rw [llama_sync_eval_delete_fail docs bs h]
    · rw [llama_sync_eval_ok]

theorem llama_sync_unchanged (docs : List SyncChunk) (bs : Nat) (dOk : Bool) :
    (llama_sync_documents docs bs true true dOk).unchanged_count
      = (unchangedChunksOf docs).length := by
  by_cases h : idsToDeleteOf docs = []
  · rw [llama_sync_eval_noids docs bs dOk h]
  · cases dOk
    · rw [llama_sync_eval_delete_fail docs bs h]
    · rw [llama_sync_eval_ok]

theorem llama_sync_total (docs : List SyncChunk) (bs : Nat) (dOk : Bool) :
    (llama_sync_documents docs bs true true dOk).total_chunks = docs.length := by
  by_cases h : idsToDeleteOf docs = []
  · rw [llama_sync_eval_noids docs bs dOk h]
  · cases dOk
    · rw [llama_sync_eval_delete_fail docs bs h]
    · rw [llama_sync_eval_ok]

theorem llama_sync_uploaded (docs : List SyncChunk) (bs : Nat) (dOk : Bool) :
    (llama_sync_documents docs bs true true dOk).uploaded
      = newChunksOf docs ++ updatedChunksOf docs := by
  by_cases h : idsToDeleteOf docs = []
  · rw [llama_sync_eval_noids docs bs dOk h]
  · cases dOk
    · rw [llama_sync_eval_delete_fail docs bs h]
    · rw [llama_sync_eval_ok]

theorem llama_sync_deletedIds_ok (docs : List SyncChunk) (bs : Nat) :
    (llama_sync_documents docs bs true true true).deletedIds = idsToDeleteOf docs := by
  by_cases h : idsToDeleteOf docs = []
  · rw [llama_sync_eval_noids docs bs true h, h]
  · rw [llama_sync_eval_ok]

theorem llama_sync_errors_delete_fail (docs : List SyncChunk) (bs : Nat)
    (h : idsToDeleteOf docs ≠ []) :
    (llama_sync_documents docs bs true true false).errors
      = ["Failed to delete old versions"] := by
  rw [llama_sync_eval_delete_fail docs bs h]

/-! Utility facts about the partition and the embedding filter. -/

theorem newChunksOf_sub {chunks : List SyncChunk} {c : SyncChunk}
    (h : c ∈ newChunksOf chunks) : c ∈ chunks :=
  List.mem_of_mem_filter h

theorem updatedChunksOf_sub {chunks : List SyncChunk} {c : SyncChunk}
    (h : c ∈ updatedChunksOf chunks) : c ∈ chunks :=
  List.mem_of_mem_filter h

theorem filter_hasEmbedding_eq {l : List SyncChunk}
    (h : ∀ c ∈ l, c.embedding ≠ []) : l.filter hasEmbedding = l := by
  apply List.filter_eq_self.mpr
  intro c hc
  simp [hasEmbedding, List.isEmpty_iff]
  exact h c hc

theorem formatChunksForPinecone_length {l : List SyncChunk}
    (h : ∀ c ∈ l, c.embedding ≠ []) :
    (formatChunksForPinecone l).length = l.length := by
  unfold formatChunksForPinecone
  rw [filter_hasEmbedding_eq h, List.length_map]

theorem idsToDeleteOf_eq {chunks : List SyncChunk}
    (h : ∀ c ∈ chunks, c.id ≠ "") :
    idsToDeleteOf chunks = (updatedChunksOf chunks).map (fun c => c.id) := by
  unfold idsToDeleteOf
  apply List.filter_eq_self.mpr
  intro s hs
  rw [List.mem_map] at hs
  obtain ⟨c, hc, rfl⟩ := hs
  simp
  exact h c (updatedChunksOf_sub hc)

theorem mem_newChunksOf {chunks : List SyncChunk} {c : SyncChunk}
    (hc : c ∈ chunks) (hs : chunkStatus c = "new") : c ∈ newChunksOf chunks := by
  unfold newChunksOf
  rw [List.mem_filter]
  exact ⟨hc, by simp [hs]⟩

theorem mem_unchangedChunksOf {chunks : List SyncChunk} {c : SyncChunk}
    (hc : c ∈ chunks) (h1 : chunkStatus c ≠ "new") (h2 : chunkStatus c ≠ "updated") :
    c ∈ unchangedChunksOf chunks := by
  unfold unchangedChunksOf
  rw [List.mem_filter]
  exact ⟨hc, by simp [h1, h2]⟩

theorem unchanged_not_new_updated {chunks : List SyncChunk} {c : SyncChunk}
    (h : c ∈ unchangedChunksOf chunks) :
    c ∉ newChunksOf chunks ∧ c ∉ updatedChunksOf chunks := by
  unfold unchangedChunksOf at h
  rw [List.mem_filter] at h
  obtain ⟨-, hp⟩ := h
  simp at hp
  constructor
  · intro hn
    rw [newChunksOf, List.mem_filter] at hn
    have := hn.2
    simp at this
    exact hp.1 this
  · intro hu
    rw [updatedChunksOf, List.mem_filter] at hu
    have := hu.2
    simp at this
    exact hp.2 this

/-! ### Claim C2 -/

/-- C2: both sync clients partition incoming chunks by change status and,
when no collaborator call fails, report counts matching that partition;
new and updated chunks are uploaded (updated ones after a delete of their
ids), a delete failure is recorded as an error without preventing the
subsequent upload, and unchanged chunks are only counted — they are never
part of an upload or delete call. -/
theorem sync_documents_partition_spec (chunks : List SyncChunk) (batchSize : Nat)
    (deleteOk : Bool)
    (hemb : ∀ c ∈ chunks, c.embedding ≠ []) (hid : ∀ c ∈ chunks, c.id ≠ "") :
    ((sync_documents chunks true true deleteOk).new_count
        = (newChunksOf chunks).length ∧
     (sync_documents chunks true true deleteOk).updated_count
        = (updatedChunksOf chunks).length ∧
     (sync_documents chunks true true deleteOk).unchanged_count
        = (unchangedChunksOf chunks).length ∧
     (sync_documents chunks true true deleteOk).total_chunks = chunks.length ∧
     (sync_documents chunks true true deleteOk).uploaded
        = newChunksOf chunks ++ updatedChunksOf chunks ∧
     (deleteOk = true → (sync_documents chunks true true deleteOk).deletedIds
        = (updatedChunksOf chunks).map (fun c => c.id)) ∧
     (deleteOk = false → updatedChunksOf chunks = [] ∨
        "Failed to delete old versions" ∈ (sync_documents chunks true true deleteOk).errors) ∧
     (∀ c ∈ unchangedChunksOf chunks,
        c ∉ (sync_documents chunks true true deleteOk).uploaded)) ∧
    ((llama_sync_documents chunks batchSize true true deleteOk).new_count
        = (newChunksOf chunks).length ∧
     (llama_sync_documents chunks batchSize true true deleteOk).updated_count
        = (updatedChunksOf chunks).length ∧
     (llama_sync_documents chunks batchSize true true deleteOk).unchanged_count
        = (unchangedChunksOf chunks).length ∧
     (llama_sync_documents chunks batchSize true true deleteOk).uploaded
        = newChunksOf chunks ++ updatedChunksOf chunks ∧
     (deleteOk = true → (llama_sync_documents chunks batchSize true true deleteOk).deletedIds
        = (updatedChunksOf chunks).map (fun c => c.id)) ∧
     (deleteOk = false → updatedChunksOf chunks = [] ∨
        "Failed to delete old versions"
          ∈ (llama_sync_documents chunks batchSize true true deleteOk).errors) ∧
     (∀ c ∈ unchangedChunksOf chunks,
        c ∉ (llama_sync_documents chunks batchSize true true deleteOk).uploaded)) := by
  have hembNew : ∀ c ∈ newChunksOf chunks, c.embedding ≠ [] :=
    fun c hc => hemb c (newChunksOf_sub hc)
  have hembUpd : ∀ c ∈ updatedChunksOf chunks, c.embedding ≠ [] :=
    fun c hc => hemb c (updatedChunksOf_sub hc)
  have hids := idsToDeleteOf_eq hid
  have hmapne : updatedChunksOf chunks ≠ [] →
      idsToDeleteOf chunks ≠ [] := by
    intro hne
    rw [hids]
    simpa using hne
  have hnotup : ∀ c ∈ unchangedChunksOf chunks,
      c ∉ newChunksOf chunks ++ updatedChunksOf chunks := by
    intro c hc hmem
    obtain ⟨hn, hu⟩ := unchanged_not_new_updated hc
    rcases List.mem_append.mp hmem with h | h
    · exact hn h
    · exact hu h
  constructor
  · refine ⟨?_, ?_, sync_documents_unchanged chunks true true deleteOk,
      sync_documents_total chunks true true deleteOk, ?_, ?_, ?_, ?_⟩
    · rw [sync_documents_new_count, formatChunksForPinecone_length hembNew]
    · rw [sync_documents_updated_count, formatChunksForPinecone_length hembUpd]
    · rw [sync_documents_uploaded, filter_hasEmbedding_eq hembNew,
        filter_hasEmbedding_eq hembUpd]
    · intro hd
      subst hd
      rw [sync_documents_deletedIds_ok, hids]
    · intro hd
      subst hd
      by_cases hupd : updatedChunksOf chunks = []
      · exact Or.inl hupd
      · right
        rw [sync_documents_errors_delete_fail chunks (hmapne hupd)]
        simp
    · intro c hc
      rw [sync_documents_uploaded, filter_hasEmbedding_eq hembNew,
        filter_hasEmbedding_eq hembUpd]
      exact hnotup c hc
  · refine ⟨llama_sync_new_count chunks batchSize deleteOk,
      llama_sync_updated_count chunks batchSize deleteOk,
      llama_sync_unchanged chunks batchSize deleteOk,
      llama_sync_uploaded chunks batchSize deleteOk, ?_, ?_, ?_⟩
    · intro hd
      subst hd
      rw [llama_sync_deletedIds_ok, hids]
    · intro hd
      subst hd
      by_cases hupd : updatedChunksOf chunks = []
      · exact Or.inl hupd
      · right
        rw [llama_sync_errors_delete_fail chunks batchSize (hmapne hupd)]
        simp
    · intro c hc
      rw [llama_sync_uploaded]
      exact hnotup c hc

/-- The spec's concrete batch: 3 new, 2 updated, 5 unchanged chunks. -/
def wSyncChunks : List SyncChunk :=
  [⟨"n1", [1], "a", some "new"⟩, ⟨"n2", [1], "b", some "new"⟩,
   ⟨"n3", [1], "c", some "new"⟩,
   ⟨"u1", [1], "d", some "updated"⟩, ⟨"u2", [1], "e", some "updated"⟩,
   ⟨"s1", [1], "f", some "unchanged"⟩, ⟨"s2", [1], "g", some "unchanged"⟩,
   ⟨"s3", [1], "h", some "unchanged"⟩, ⟨"s4", [1], "i", some "unchanged"⟩,
   ⟨"s5", [1], "j", some "unchanged"⟩]

theorem sync_documents_partition_spec_witness :
    (sync_documents wSyncChunks true true true).new_count = 3 ∧
    (sync_documents wSyncChunks true true true).updated_count = 2 ∧
    (sync_documents wSyncChunks true true true).unchanged_count = 5 ∧
    (sync_documents wSyncChunks true true true).deletedIds = ["u1", "u2"] :=
  have h := sync_documents_partition_spec wSyncChunks 100 true
    (by decide) (by decide)
  ⟨h.1.1.trans (by decide), h.1.2.1.trans (by decide),
   h.1.2.2.1.trans (by decide), (h.1.2.2.2.2.2.1 rfl).trans (by decide)⟩

/-! ### Claim C10 -/

/-- C10: at the sync interface a chunk without a `change_status` key is
classified "new" and uploaded, while a chunk with any status other than
"new" or "updated" lands in the unchanged bucket: it is counted and never
appears in an upload, and delete calls only carry ids of updated
chunks. -/
theorem sync_status_default_spec (chunks : List SyncChunk) (batchSize : Nat)
    (deleteOk : Bool) (c : SyncChunk) (hc : c ∈ chunks) :
    (c.change_status = none → chunkStatus c = "new" ∧ c ∈ newChunksOf chunks ∧
      (c.embedding ≠ [] → c ∈ (sync_documents chunks true true deleteOk).uploaded) ∧
      c ∈ (llama_sync_documents chunks batchSize true true deleteOk).uploaded) ∧
    (∀ s, c.change_status = some s → s ≠ "new" → s ≠ "updated" →
      c ∈ unchangedChunksOf chunks ∧
      (sync_documents chunks true true deleteOk).unchanged_count
        = (unchangedChunksOf chunks).length ∧
      c ∉ (sync_documents chunks true true deleteOk).uploaded ∧
      c ∉ (llama_sync_documents chunks batchSize true true deleteOk).uploaded ∧
      (∀ s' ∈ (sync_documents chunks true true deleteOk).deletedIds,
        ∃ u ∈ updatedChunksOf chunks, u.id = s')) := by
  constructor
  · intro hnone
    have hstat : chunkStatus c = "new" := by
      simp [chunkStatus, hnone]
    have hmem := mem_newChunksOf hc hstat
    refine ⟨hstat, hmem, ?_, ?_⟩
    · intro hembc
      rw [sync_documents_uploaded]
      apply List.mem_append.mpr
      left
      rw [List.mem_filter]
      refine ⟨hmem, ?_⟩
      simp [hasEmbedding, List.isEmpty_iff, hembc]
    · rw [llama_sync_uploaded]
      exact List.mem_append.mpr (Or.inl hmem)
  · intro s hs hs1 hs2
    have hstat : chunkStatus c = s := by
      simp [chunkStatus, hs]
    have hmem := mem_unchangedChunksOf hc (by rw [hstat]; exact hs1)
      (by rw [hstat]; exact hs2)
    obtain ⟨hn, hu⟩ := unchanged_not_new_updated hmem
    refine ⟨hmem, sync_documents_unchanged chunks true true deleteOk, ?_, ?_, ?_⟩
    · rw [sync_documents_uploaded]
      intro hin
      rcases List.mem_append.mp hin with h | h
      · exact hn (List.mem_of_mem_filter h)
      · exact hu (List.mem_of_mem_filter h)
    · rw [llama_sync_uploaded]
      intro hin
      rcases List.mem_append.mp hin with h | h
      · exact hn h
      · exact hu h
    · intro s' hs'
      cases deleteOk
      · rw [sync_documents_deletedIds_fail] at hs'
        simp at hs'
      · rw [sync_documents_deletedIds_ok] at hs'
        unfold idsToDeleteOf at hs'
        have := List.mem_of_mem_filter hs'
        rw [List.mem_map] at this
        obtain ⟨u, hu', rfl⟩ := this
        exact ⟨u, hu', rfl⟩

theorem sync_status_default_spec_witness :
    ((⟨"m1", [1], "x", none⟩ : SyncChunk).change_status = none →
      chunkStatus ⟨"m1", [1], "x", none⟩ = "new" ∧
      (⟨"m1", [1], "x", none⟩ : SyncChunk) ∈
        newChunksOf [⟨"m1", [1], "x", none⟩, ⟨"m2", [1], "y", some "skipped"⟩] ∧
      ((⟨"m1", [1], "x", none⟩ : SyncChunk).embedding ≠ [] →
        (⟨"m1", [1], "x", none⟩ : SyncChunk) ∈
          (sync_documents [⟨"m1", [1], "x", none⟩, ⟨"m2", [1], "y", some "skipped"⟩]
            true true true).uploaded) ∧
      (⟨"m1", [1], "x", none⟩ : SyncChunk) ∈
        (llama_sync_documents [⟨"m1", [1], "x", none⟩, ⟨"m2", [1], "y", some "skipped"⟩]
          100 true true true).uploaded) ∧
    (∀ s, (⟨"m1", [1], "x", none⟩ : SyncChunk).change_status = some s → s ≠ "new" →
      s ≠ "updated" →
      (⟨"m1", [1], "x", none⟩ : SyncChunk) ∈
        unchangedChunksOf [⟨"m1", [1], "x", none⟩, ⟨"m2", [1], "y", some "skipped"⟩] ∧
      (sync_documents [⟨"m1", [1], "x", none⟩, ⟨"m2", [1], "y", some "skipped"⟩]
          true true true).unchanged_count
        = (unchangedChunksOf
            [⟨"m1", [1], "x", none⟩, ⟨"m2", [1], "y", some "skipped"⟩]).length ∧
      (⟨"m1", [1], "x", none⟩ : SyncChunk) ∉
        (sync_documents [⟨"m1", [1], "x", none⟩, ⟨"m2", [1], "y", some "skipped"⟩]
          true true true).uploaded ∧
      (⟨"m1", [1], "x", none⟩ : SyncChunk) ∉
        (llama_sync_documents [⟨"m1", [1], "x", none⟩, ⟨"m2", [1], "y", some "skipped"⟩]
          100 true true true).uploaded ∧
      (∀ s' ∈ (sync_documents [⟨"m1", [1], "x", none⟩, ⟨"m2", [1], "y", some "skipped"⟩]
          true true true).deletedIds,
        ∃ u ∈ updatedChunksOf [⟨"m1", [1], "x", none⟩, ⟨"m2", [1], "y", some "skipped"⟩],
          u.id = s')) :=
  sync_status_default_spec
    [⟨"m1", [1], "x", none⟩, ⟨"m2", [1], "y", some "skipped"⟩] 100 true
    ⟨"m1", [1], "x", none⟩ (by decide)

/-! ### Streaming-mode orchestration (`src/pipeline/orchestrator.py`)

`run_full_pipeline` dispatches to `_run_streaming_pipeline` when the
pipeline mode is "streaming".  That method constructs the stream
processor with `StreamProcessor(storage_mode=..., s3_client=...,
pinecone_client=..., max_workers=3)` inside its `try` block; Python
rejects a keyword argument that the callee's signature does not declare
with a `TypeError` before the constructor body runs.  The model records
the keyword names at the call site and the parameter names of
`StreamProcessor.__init__`, both read off the source. -/

/-- Parameters accepted by `StreamProcessor.__init__`
(`src/pipeline/stream_processor.py`, beyond `self`). -/
def streamProcessorInitParams : List String :=
  ["storage_mode", "s3_client", "max_workers"]

/-- Keyword arguments the orchestrator's streaming path passes to
`StreamProcessor` (`src/pipeline/orchestrator.py`). -/
def orchestratorStreamKwargs : List String :=
  ["storage_mode", "s3_client", "pinecone_client", "max_workers"]

/-- Keys of the `stats` dict that `StreamProcessor` maintains; the
orchestrator's progress loop reads `chunks_uploaded_pinecone` from it. -/
def streamProcessorStatsKeys : List String :=
  ["files_processed", "documents_processed", "chunks_created",
   "embeddings_generated", "errors"]

/-- A Python keyword call succeeds only when every keyword matches a
declared parameter. -/
def kwargsAccepted (params kwargs : List String) : Bool :=
  kwargs.all (fun k => params.contains k)

/-- Observable outcome of `_run_streaming_pipeline` as far as the claim
is concerned: whether the watcher and workers were started, the `success`
flag, and the reported failing stage. -/
structure StreamingRun where
  watcherStarted : Bool
  workersStarted : Bool
  success : Bool
  stage : Option String
deriving DecidableEq

/-- `_run_streaming_pipeline`: the `StreamProcessor(...)` construction is
the first statement of the `try` block, before `start_watching` and
`start_workers`; if the call raises `TypeError`, the `except` branch
returns the result dict with `success` still `False` and
`stage = "unknown"`.  The spec-described path is taken only when the
construction succeeds. -/
def runStreamingPipelineModel : StreamingRun :=
  if kwargsAccepted streamProcessorInitParams orchestratorStreamKwargs then
    { watcherStarted := true, workersStarted := true, success := true, stage := none }
  else
    { watcherStarted := false, workersStarted := false, success := false,
      stage := some "unknown" }

/-! ### Claim C6 -/

/-- C6: the streaming path can never run as specified — the orchestrator
passes the keyword `pinecone_client`, which `StreamProcessor.__init__`
does not accept (and its progress loop reads the stats key
`chunks_uploaded_pinecone`, which the stream processor never defines), so
construction raises `TypeError`, no watcher or worker pool is started,
and the run always returns `success = False` with stage "unknown" instead
of the specified polling behaviour. -/
theorem streaming_pipeline_kwargs_bug :
    "pinecone_client" ∈ orchestratorStreamKwargs ∧
    "pinecone_client" ∉ streamProcessorInitParams ∧
    "chunks_uploaded_pinecone" ∉ streamProcessorStatsKeys ∧
    kwargsAccepted streamProcessorInitParams orchestratorStreamKwargs = false ∧
    runStreamingPipelineModel.watcherStarted = false ∧
    runStreamingPipelineModel.workersStarted = false ∧
    runStreamingPipelineModel.success = false ∧
    runStreamingPipelineModel.stage = some "unknown" := by
  decide

end Docs2Vector
